import Mathlib

/-!
Verification of the Burrow/DED cross-validation core
(`burrow_enhanced_validation.py`, `burrow_entry_parser.py`,
`burrow_language_mappings.py`, `burrow_corpus_scraper.py`).

The Python code is shallowly embedded: pure string manipulation is
modelled character-by-character over `List Char` / `String`; the Unicode
tables consulted through Python's `unicodedata` module are embedded as
finite tables covering every character that actually occurs in this
development (all other characters behave as inert, which matches the
Unicode data for them); network fetches and HTML/regex front-ends are
abstracted as oracle parameters, with the downstream record processing
embedded faithfully.
-/

namespace Burrow

/-- Python whitespace test used by `str.strip()` and no-argument
`str.split()`, restricted to the ASCII whitespace characters that can
occur in this development. -/
def isPySpace (c : Char) : Bool :=
  c = ' ' ∨ c = '\t' ∨ c = '\n' ∨ c = '\r'

/-- A fragment of Python's `str.lower()`: ASCII letters are mapped as
usual; the uppercase diacritic letters appearing in the repository's
language tables and parser character class are mapped to their Unicode
lowercase forms; every other character is case-stable.  (Each non-ASCII
entry matches the simple lowercase mapping in `UnicodeData.txt`.) -/
def pyLower (c : Char) : Char :=
  if 'A' ≤ c ∧ c ≤ 'Z' then Char.ofNat (c.toNat + 32)
  else if c = 'Ā' then 'ā'
  else if c = 'Ī' then 'ī'
  else if c = 'Ū' then 'ū'
  else if c = 'Ṛ' then 'ṛ'
  else if c = 'Ḥ' then 'ḥ'
  else if c = 'Ś' then 'ś'
  else if c = 'Ṣ' then 'ṣ'
  else if c = 'Ṭ' then 'ṭ'
  else if c = 'Ḍ' then 'ḍ'
  else if c = 'Ṇ' then 'ṇ'
  else if c = 'Ṃ' then 'ṃ'
  else if c = 'Ṁ' then 'ṁ'
  else if c = 'Ḷ' then 'ḷ'
  else if c = 'Ḹ' then 'ḹ'
  else if c = 'Ṟ' then 'ṟ'
  else if c = 'Ṉ' then 'ṉ'
  else if c = 'Ŋ' then 'ŋ'
  else if c = 'Ñ' then 'ñ'
  else c

/-- Python `str.lower()` on a whole character list. -/
def pyLowerChars (l : List Char) : List Char := l.map pyLower

/-- A fragment of Unicode NFKD decomposition (Python
`unicodedata.normalize("NFKD", ·)`), as a character-level map.  The
table covers the decomposable characters occurring in this development:
`ṉ` (U+1E49) has canonical decomposition `n` + U+0331 (combining macron
below), `Ṉ` (U+1E48) decomposes to `N` + U+0331, and `™` (U+2122) has
the compatibility decomposition `TM`.  All other characters used here
are NFKD-inert. -/
def nfkdChar (c : Char) : List Char :=
  if c = 'ṉ' then ['n', '̱']
  else if c = 'Ṉ' then ['N', '̱']
  else if c = '™' then ['T', 'M']
  else [c]

/-- NFKD decomposition of a character list. -/
def nfkdChars (l : List Char) : List Char := l.flatMap nfkdChar

/-- A fragment of `unicodedata.combining`: the canonical combining class
of U+0331 COMBINING MACRON BELOW is 220; every other character occurring
in this development has combining class 0. -/
def combiningClass (c : Char) : Nat :=
  if c = '̱' then 220 else 0

/-- Python `str.strip()`: drop leading and trailing whitespace. -/
def pyStrip (l : List Char) : List Char :=
  ((l.dropWhile isPySpace).reverse.dropWhile isPySpace).reverse

/-- One step of the whitespace splitter: a whitespace character opens a
fresh group, any other character is prepended to the current group. -/
def pyWordsStep (c : Char) (acc : List (List Char)) : List (List Char) :=
  if isPySpace c then [] :: acc
  else
    match acc with
    | [] => [[c]]
    | w :: ws => (c :: w) :: ws

/-- No-argument `str.split()`: split on runs of whitespace, discarding
empty pieces. -/
def pyWords (l : List Char) : List (List Char) :=
  (l.foldr pyWordsStep []).filter (fun w => ¬ w.isEmpty)

/-- Python `" ".join(words)`. -/
def joinWords : List (List Char) → List Char
  | [] => []
  | [w] => w
  | w :: ws => w ++ ' ' :: joinWords ws

/-- The chain of single-character replacements in
`_normalize_headword_for_index`:
`.replace("*", "").replace("-", " ").replace("(", " ").replace(")", " ")`
(each pattern is a single character, so the chain is one character map). -/
def replSpecial (c : Char) : List Char :=
  if c = '*' then []
  else if c = '-' then [' ']
  else if c = '(' then [' ']
  else if c = ')' then [' ']
  else [c]

/-- Model of `EnhancedValidationWorkflow._normalize_headword_for_index`, on
character lists: strip stars/hyphens/parentheses, `strip()`, lowercase,
NFKD-decompose, drop combining marks, collapse internal whitespace. -/
def normalizeHeadwordChars (l : List Char) : List Char :=
  let base := pyLowerChars (pyStrip (l.flatMap replSpecial))
  let decomposed := nfkdChars base
  let filtered := decomposed.filter (fun c => combiningClass c = 0)
  joinWords (pyWords filtered)

/-- Model of `EnhancedValidationWorkflow._normalize_headword_for_index`. -/
def normalize_headword_for_index (s : String) : String :=
  String.mk (normalizeHeadwordChars s.data)

/-- Contiguous-sublist test on character lists. -/
def listIsInfix (a : List Char) : List Char → Bool
  | [] => a.isEmpty
  | c :: bs => a.isPrefixOf (c :: bs) || listIsInfix a bs

/-- Python's substring test `a in b`. -/
def pySubstr (a b : String) : Bool :=
  listIsInfix a.data b.data

/-- Python `str.rstrip(".")`: drop trailing dots. -/
def rstripDots (s : String) : String :=
  String.mk ((s.data.reverse.dropWhile (fun c => c = '.')).reverse)

/-- Python `str.lower()` on a string. -/
def pyLowerStr (s : String) : String := String.mk (pyLowerChars s.data)

/-- Python `str.strip()` on a string. -/
def pyStripStr (s : String) : String := String.mk (pyStrip s.data)

/-! ### `burrow_language_mappings.py` -/

/-- The `BURROW_TO_STARLING` table (Python dict, keys unique, insertion
order kept), as an association list. -/
def BURROW_TO_STARLING : List (String × String) :=
  [("ĀlKu.", "Ālu Kuṟumba"),
   ("Bel.", "Belari"),
   ("Br.", "Brahui"),
   ("Dr.", "Proto-Dravidian"),
   ("PDr.", "Proto-Dravidian"),
   ("Ga.", "Gadba"),
   ("Go.", "Gondi"),
   ("Ir.", "Iruḷa"),
   ("Ka.", "Kannada"),
   ("Ko.", "Kota"),
   ("Koḍ.", "Kodagu"),
   ("Kol.", "Kolami"),
   ("Kor.", "Koraga"),
   ("Kur.", "Kurukh"),
   ("Kurub.", "Beṭṭa Kuruba"),
   ("Ma.", "Malayalam"),
   ("Malt.", "Malto"),
   ("Manḍ.", "Manda"),
   ("Nk.", "Naikri"),
   ("Nk. (Ch.)", "Naiki"),
   ("Pa.", "Parji"),
   ("PālKu.", "Pālu Kuṟumba"),
   ("Pe.", "Pengo"),
   ("Ta.", "Tamil"),
   ("Te.", "Telugu"),
   ("To.", "Toda"),
   ("Tu.", "Tulu"),
   ("Konḍa", "Konda"),
   ("Kui", "Kui"),
   ("Kuwi", "Kuwi (Schulze)")]

/-- The `STARLING_VARIANTS` table: base language name → registered
dialect variants. -/
def STARLING_VARIANTS : List (String × List String) :=
  [("Gondi",
    ["Koya Gondi", "Muria Gondi", "Maria Gondi", "Betul Gondi",
     "Adilabad Gondi", "Mandla Gondi (Phailbus)", "Maria Gondi (Mitchell)",
     "Mandla Gondi (Williamson)", "Seoni Gondi", "Gommu Gondi",
     "Yeotmal Gondi", "Chindwara Gondi", "Durg Gondi", "Chanda Gondi",
     "Mandla Gondi", "Maria Gondi (Lind)", "Maria Gondi (Smith)"]),
   ("Gadba",
    ["Salur Gadba", "Ollari Gadba", "Kondekor Gadba", "Poya Gadba"]),
   ("Kuwi",
    ["Kuwi (Schulze)", "Kuwi (Fitzgerald)", "Kuwi (Israel)",
     "Sunkarametta Kuwi", "Kuwi (Mahanti)", "Tekriya Kuwi", "Dongriya Kuwi",
     "Parja Kuwi"]),
   ("Kolami",
    ["Kinwat Kolami", "Kolami (Setumadhava Rao)"]),
   ("Konda",
    ["Konda (Burrow/Bhattacharya)"]),
   ("Kui",
    ["Khuttia Kui"]),
   ("Telugu",
    ["Telugu (Krishnamurti)", "Inscriptional Telugu", "Merolu Telugu",
     "Proto-Telugu"])]

/-- Python `dict.get(k, default)` over an association list. -/
def dictGetD (d : List (String × String)) (k dflt : String) : String :=
  match d.find? (fun kv => kv.1 = k) with
  | some kv => kv.2
  | none => dflt

/-- Model of `normalize_language`: `BURROW_TO_STARLING.get(burrow_abbrev,
burrow_abbrev)`. -/
def normalize_language (burrow_abbrev : String) : String :=
  dictGetD BURROW_TO_STARLING burrow_abbrev burrow_abbrev

/-- Model of `match_language_variant(burrow_lang, starling_lang, strict)`: exact
match of the canonicalized first argument, then the three variant-group
checks, then (non-strict) case-insensitive containment with a minimum
overlap of 4 characters. -/
def match_language_variant (burrow_lang starling_lang : String)
    (strict : Bool := false) : Bool :=
  let normalized_burrow := normalize_language burrow_lang
  if normalized_burrow = starling_lang then true
  else if STARLING_VARIANTS.any (fun bv =>
      (normalized_burrow = bv.1 ∧ bv.2.contains starling_lang) ∨
      (bv.2.contains normalized_burrow ∧ starling_lang = bv.1) ∨
      (bv.2.contains normalized_burrow ∧ bv.2.contains starling_lang)) then
    true
  else if ¬ strict then
    let burrow_lower := pyLowerStr normalized_burrow
    let starling_lower := pyLowerStr starling_lang
    if pySubstr burrow_lower starling_lower ∨
        pySubstr starling_lower burrow_lower then
      if min burrow_lower.length starling_lower.length ≥ 4 then true
      else false
    else false
  else false

/-! ### `burrow_entry_parser.py` -/

/-- The `LanguageAttestation` dataclass. -/
structure LanguageAttestation where
  language_abbrev : String
  language_name : String
  headwords : List String
  gloss : String
  source_text : String
  deriving DecidableEq, Repr

/-- The record-headword cleanup of `find_matching_attestation`:
`starling_headword.replace("*", "").replace("-", "").strip().lower()`
(both replacements delete single characters). -/
def starling_headword_clean (starling_headword : String) : String :=
  pyLowerStr (pyStripStr (String.mk
    (starling_headword.data.filter (fun c => c ≠ '*' ∧ c ≠ '-'))))

/-- The per-headword comparison inside `find_matching_attestation`:
the attested headword, stripped and lowercased, equals the cleaned
record headword, or the two contain one another as substrings.  (No
NFKD decomposition or combining-mark removal is involved on either
side.) -/
def code_headword_match (starling_headword burrow_headword : String) : Bool :=
  let burrow_clean := pyLowerStr (pyStripStr burrow_headword)
  burrow_clean = starling_headword_clean starling_headword ∨
  pySubstr burrow_clean (starling_headword_clean starling_headword) ∨
  pySubstr (starling_headword_clean starling_headword) burrow_clean

/-- Model of `BurrowEntryParser.find_matching_attestation`: clean the record
headword, then return the first attestation whose language matches
`match_language_variant` and one of whose headwords passes
`code_headword_match`. -/
def find_matching_attestation (attestations : List LanguageAttestation)
    (starling_language starling_headword : String) :
    Option LanguageAttestation :=
  attestations.find? (fun attestation =>
    match_language_variant attestation.language_abbrev starling_language ∧
    attestation.headwords.any (fun burrow_headword =>
      code_headword_match starling_headword burrow_headword))

end Burrow

namespace Burrow

/-- The regex-marker loop input of
`BurrowEntryParser.parse_language_sections`: one `<b><i>Lang.</i>
headwords</b>` match, in document order, together with the
HTML-stripped text of the gloss run that follows it (the text the code
obtains from the slice up to the next marker / end marker, before the
200-character truncation). -/
structure LanguageMarker where
  lang_abbrev : String
  headword_text : String
  gloss_text : String
  deriving DecidableEq, Repr

/-- The `invalid_langs` denylist of `parse_language_sections`. -/
def invalid_langs : List String :=
  ["Voc", "CDIAL", "DED", "DEDS", "Turner", "Cf", "Skt"]

/-- Python `str.split(",")`: split on every comma, keeping empty
pieces. -/
def pySplitComma (s : String) : List String :=
  (s.data.foldr
    (fun c acc =>
      if c = ',' then [] :: acc
      else
        match acc with
        | [] => [[c]]
        | w :: ws => (c :: w) :: ws)
    [[]]).map String.mk

/-- Python `hw.startswith("(")`: the first character is `(`. -/
def pyStartswithParen (s : String) : Bool :=
  match s.data with
  | [] => false
  | c :: _ => c = '('

/-- The headword-candidate filter of `parse_language_sections`: split
the headword span on commas, strip each piece, keep pieces that are
non-empty, longer than one character and do not begin with `(`. -/
def surviving_headwords (headword_text : String) : List String :=
  ((pySplitComma headword_text).map pyStripStr).filter
    (fun hw => hw ≠ "" ∧ hw.length > 1 ∧ pyStartswithParen hw = false)

/-- The body of the marker loop in `parse_language_sections`: denylist
check on the dot-stripped language token, candidate filtering, marker
discarding when no candidate survives, gloss truncation to 200
characters, attestation assembly. -/
def marker_attestation (m : LanguageMarker) : Option LanguageAttestation :=
  let lang_clean := rstripDots m.lang_abbrev
  if invalid_langs.contains lang_clean then none
  else
    let headwords := surviving_headwords m.headword_text
    if headwords.isEmpty then none
    else
      some
        { language_abbrev := m.lang_abbrev
          language_name := normalize_language m.lang_abbrev
          headwords := headwords
          gloss := String.mk (m.gloss_text.data.take 200)
          source_text :=
            m.lang_abbrev ++ " " ++ String.intercalate ", " headwords }

/-- Model of `BurrowEntryParser.parse_language_sections`, with the HTML/regex
front end (fragment selection and marker matching) abstracted into the
input marker list; the loop appends at most one attestation per marker,
in order. -/
def parse_language_sections (ms : List LanguageMarker) :
    List LanguageAttestation :=
  ms.filterMap marker_attestation

/-- Model of `BurrowEntryParser.clean_ded_number`, i.e. `str(int(float(ded_str)))`
with fallback `str(ded_str).strip()` on a parse error; modelled for the
inputs Python's `float` accepts that occur as DED numbers — optionally
whitespace-padded nonnegative decimal literals — on which
`int(float(s))` is the integer part. -/
def clean_ded_number (s : String) : String :=
  let stripped := s.data.dropWhile isPySpace |>.reverse.dropWhile isPySpace |>.reverse
  let intPart := stripped.takeWhile Char.isDigit
  let rest := stripped.drop intPart.length
  let digitsToNat : List Char → Nat :=
    fun l => l.foldl (fun n c => n * 10 + (c.toNat - 48)) 0
  match rest with
  | [] =>
    if intPart.isEmpty then String.mk (pyStrip s.data)
    else toString (digitsToNat intPart)
  | c :: frac =>
    if c = '.' ∧ frac.all Char.isDigit ∧ (intPart ≠ [] ∨ frac ≠ []) then
      toString (digitsToNat intPart)
    else String.mk (pyStrip s.data)

/-! ### `burrow_enhanced_validation.py`: corpus indices -/

/-- One entry of the in-memory corpus built by `load_burrow_corpus`
(`{"page": ..., "ded_number": ..., "attestations": [...]}`); the JSON
values of `page` and `ded_number` are modelled as already rendered
(`ded_number` holds the `str(...)` image used as the index key). -/
structure CorpusEntry where
  page : Option Nat
  ded_number : Option String
  attestations : List LanguageAttestation
  deriving DecidableEq, Repr

/-- One reference stored in the by-normalized-headword index
(`{"attestation": ..., "ded_number": ..., "page": ...}`). -/
structure HeadwordRef where
  attestation : LanguageAttestation
  ded_number : Option String
  page : Option Nat
  deriving DecidableEq, Repr

/-- One raw corpus-JSON entry fed to `load_burrow_corpus`; an
attestation dict that fails `LanguageAttestation(**att_data)` with a
`TypeError` (and is skipped) is modelled as `none`. -/
structure RawCorpusEntry where
  page : Option Nat
  ded_number : Option String
  attestations_data : List (Option LanguageAttestation)
  deriving DecidableEq, Repr

/-- Python `dict.get` over an insertion-ordered association list. -/
def dictFind? {α : Type} (d : List (String × α)) (k : String) : Option α :=
  (d.find? (fun kv => kv.1 = k)).map (fun kv => kv.2)

/-- Python `d.setdefault(k, []).append(v)`: append `v` to the list stored under
`k`, creating the key at the end of the dict when absent. -/
def dictAppend {α : Type} (d : List (String × List α)) (k : String) (v : α) :
    List (String × List α) :=
  match d with
  | [] => [(k, [v])]
  | kv :: rest =>
    if kv.1 = k then (kv.1, kv.2 ++ [v]) :: rest
    else kv :: dictAppend rest k v

/-- The list stored under a key, empty when the key is absent (Python's
`refs = d.get(k)` followed by the falsy test `if not refs` identifies
the two cases). -/
def getRefs {α : Type} (d : List (String × List α)) (k : String) : List α :=
  (dictFind? d k).getD []

/-- The per-entry body of the `load_burrow_corpus` loop: drop
unparseable attestations, append the entry to the by-DED index when a
DED number is present, and index every headword of every attestation
under its normalized form. -/
def load_corpus_step
    (acc : List (String × List CorpusEntry) × List (String × List HeadwordRef))
    (raw : RawCorpusEntry) :
    List (String × List CorpusEntry) × List (String × List HeadwordRef) :=
  let attestations := raw.attestations_data.filterMap (fun o => o)
  let corpus_entry : CorpusEntry :=
    { page := raw.page, ded_number := raw.ded_number,
      attestations := attestations }
  let entries_by_ded :=
    match raw.ded_number with
    | some ded_key => dictAppend acc.1 ded_key corpus_entry
    | none => acc.1
  let att_by_head :=
    attestations.foldl
      (fun m att =>
        att.headwords.foldl
          (fun m hw =>
            dictAppend m (normalize_headword_for_index hw)
              { attestation := att, ded_number := raw.ded_number,
                page := raw.page })
          m)
      acc.2
  (entries_by_ded, att_by_head)

/-- Model of `EnhancedValidationWorkflow.load_burrow_corpus`: one pass over the
corpus entries building the by-DED and by-normalized-headword indices. -/
def load_burrow_corpus (raws : List RawCorpusEntry) :
    List (String × List CorpusEntry) × List (String × List HeadwordRef) :=
  raws.foldl load_corpus_step ([], [])

/-! ### `burrow_enhanced_validation.py`: lookups and `validate_entry` -/

/-- Model of `EnhancedValidationWorkflow._lookup_in_corpus_by_ded`. -/
def lookup_in_corpus_by_ded
    (corpus_entries_by_ded : List (String × List CorpusEntry))
    (ded_number_str language headword : String) :
    Option LanguageAttestation :=
  if corpus_entries_by_ded.isEmpty then none
  else
    match getRefs corpus_entries_by_ded ded_number_str with
    | [] => none
    | candidates =>
      candidates.findSome? (fun entry =>
        find_matching_attestation entry.attestations language headword)

/-- The candidate-reference list `_lookup_in_corpus_by_headword`
retrieves from the by-normalized-headword index for a record headword
(the normalization is applied to the query just as at build time). -/
def headword_query_refs
    (corpus_attestations_by_headword : List (String × List HeadwordRef))
    (headword : String) : List HeadwordRef :=
  getRefs corpus_attestations_by_headword
    (normalize_headword_for_index headword)

/-- Model of `EnhancedValidationWorkflow._lookup_in_corpus_by_headword`: fetch
the references under the normalized record headword, accept the first
whose language passes `match_language_variant`, and otherwise fall back
to the first whose full language name and the record language contain
one another case-insensitively. -/
def lookup_in_corpus_by_headword
    (corpus_attestations_by_headword : List (String × List HeadwordRef))
    (language headword : String) : Option LanguageAttestation :=
  if corpus_attestations_by_headword.isEmpty then none
  else
    let refs := headword_query_refs corpus_attestations_by_headword headword
    if refs.isEmpty then none
    else
      match refs.find? (fun ref =>
          match_language_variant ref.attestation.language_abbrev language) with
      | some ref => some ref.attestation
      | none =>
        match refs.find? (fun ref =>
            pySubstr (pyLowerStr language)
              (pyLowerStr ref.attestation.language_name) ∨
            pySubstr (pyLowerStr ref.attestation.language_name)
              (pyLowerStr language)) with
        | some ref => some ref.attestation
        | none => none

/-- Model of `EnhancedValidationWorkflow._lookup_in_corpus_by_meaning`: scan all
indexed references; where a meaning token longer than 3 characters
occurs in the gloss, require a language-variant match and exact
normalized-headword equality. -/
def lookup_in_corpus_by_meaning
    (corpus_attestations_by_headword : List (String × List HeadwordRef))
    (meaning language headword : String) : Option LanguageAttestation :=
  if corpus_attestations_by_headword.isEmpty then none
  else
    let meaning_words := (pyWords (pyLowerStr meaning).data).map String.mk
    if meaning_words.isEmpty then none
    else
      corpus_attestations_by_headword.findSome? (fun kv =>
        kv.2.findSome? (fun ref =>
          let att := ref.attestation
          let gloss_lower := pyLowerStr att.gloss
          if meaning_words.any (fun w => w.length > 3 ∧ pySubstr w gloss_lower) then
            if match_language_variant att.language_abbrev language then
              let hw_normalized := normalize_headword_for_index headword
              att.headwords.findSome? (fun burrow_hw =>
                if normalize_headword_for_index burrow_hw = hw_normalized then
                  some att
                else none)
            else none
          else none))

/-- The summary dict stored in `validation["burrow_attestation"]`. -/
structure AttSummary where
  language : String
  language_abbrev : String
  headwords : List String
  gloss : String
  deriving DecidableEq, Repr

/-- Build the `burrow_attestation` summary from a matched attestation. -/
def attSummary (a : LanguageAttestation) : AttSummary :=
  { language := a.language_name, language_abbrev := a.language_abbrev,
    headwords := a.headwords, gloss := a.gloss }

/-- One Starling record as `validate_entry` reads it from the row:
string fields already passed through `str(... or "")`, and
`ded_number = some s` exactly when `_has_scalar_value` holds, with `s`
its `str(...)` rendering. -/
structure StarlingRecord where
  id : String
  headword : String
  meaning : String
  language : String
  ded_number : Option String
  deriving DecidableEq, Repr

/-- The validation dict built by `validate_entry` (the free-text
`notes`, which are display-only diagnostics, are not modelled). -/
structure Validation where
  starling_id : String
  starling_headword : String
  starling_meaning : String
  starling_language : String
  starling_ded_number : Option String
  burrow_found : Bool
  burrow_language_matched : Bool
  burrow_headword_matched : Bool
  burrow_attestation : Option AttSummary
  match_status : String
  deriving DecidableEq, Repr

/-- The mutable workflow state `validate_entry` consults. -/
structure WorkflowState where
  corpus_entries_by_ded : List (String × List CorpusEntry)
  corpus_attestations_by_headword : List (String × List HeadwordRef)
  corpus_loaded : Bool

/-- The network-dependent fallbacks of `validate_entry`, abstracted:
`ded_attestations d` stands for `query_ded_entry(d)` composed with
`parse_language_sections` (`none` when the DED page is not found), and
`meaning_match m l h` for `_validate_via_meaning(m, l, h)`. -/
structure WebOracle where
  ded_attestations : String → Option (List LanguageAttestation)
  meaning_match : String → String → String → Option LanguageAttestation

/-- The initial validation dict of `validate_entry`. -/
def initValidation (row : StarlingRecord) : Validation :=
  { starling_id := row.id, starling_headword := row.headword,
    starling_meaning := row.meaning, starling_language := row.language,
    starling_ded_number := row.ded_number,
    burrow_found := false, burrow_language_matched := false,
    burrow_headword_matched := false, burrow_attestation := none,
    match_status := "not_validated" }

/-- Outcome of the DED-based step 1 of `validate_entry`: either an early
`return validation` or the updated dict handed to the later tiers. -/
inductive Step1Result where
  | done (v : Validation)
  | cont (v : Validation)

/-- Step 1 of `validate_entry` (DED-based resolution): the local corpus
lookup with early return on success; otherwise the live-web fallback
when no corpus is loaded (`ded_not_found` / `parse_failed` /
`full_match` with early return / `no_attestation_match`), or the
corpus-loaded diagnostic branch, which always sets
`no_attestation_match` and only flags `burrow_language_matched` /
`burrow_found` when the DED exists in the corpus with a
language-matching attestation; with no DED number, `no_ded_number`. -/
def validateStep1 (st : WorkflowState) (web : WebOracle)
    (row : StarlingRecord) : Step1Result :=
  let v0 := initValidation row
  match row.ded_number with
  | some ded_number_str =>
    match lookup_in_corpus_by_ded st.corpus_entries_by_ded ded_number_str
        row.language row.headword with
    | some corpus_match =>
      .done
        { v0 with burrow_found := true, burrow_language_matched := true,
                  burrow_headword_matched := true,
                  burrow_attestation := some (attSummary corpus_match),
                  match_status := "full_match" }
    | none =>
      if ¬ st.corpus_loaded then
        match web.ded_attestations ded_number_str with
        | none => .cont { v0 with match_status := "ded_not_found" }
        | some attestations =>
          if attestations.isEmpty then
            .cont { v0 with match_status := "parse_failed" }
          else
            match find_matching_attestation attestations row.language
                row.headword with
            | some matching_attestation =>
              .done
                { v0 with burrow_found := true,
                          burrow_language_matched := true,
                          burrow_headword_matched := true,
                          burrow_attestation :=
                            some (attSummary matching_attestation),
                          match_status := "full_match" }
            | none =>
              .cont
                { v0 with burrow_found := true,
                          match_status := "no_attestation_match" }
      else
        let v1 := { v0 with match_status := "no_attestation_match" }
        match dictFind? st.corpus_entries_by_ded ded_number_str with
        | some (entry :: _) =>
          let lang_attestations := entry.attestations.filter (fun att =>
            match_language_variant att.language_abbrev row.language)
          if ¬ lang_attestations.isEmpty then
            .cont { v1 with burrow_language_matched := true,
                            burrow_found := true }
          else .cont v1
        | _ => .cont v1
  | none => .cont { v0 with match_status := "no_ded_number" }

/-- Model of `EnhancedValidationWorkflow.validate_entry`: step 1 (DED), then the
corpus headword tier, then the meaning tier (corpus-based when the
corpus is loaded, web-based otherwise, and only when the meaning is
non-empty). -/
def validate_entry (st : WorkflowState) (web : WebOracle)
    (row : StarlingRecord) : Validation :=
  match validateStep1 st web row with
  | .done v => v
  | .cont v =>
    match lookup_in_corpus_by_headword st.corpus_attestations_by_headword
        row.language row.headword with
    | some corpus_hw_match =>
      { v with burrow_found := true, burrow_language_matched := true,
               burrow_headword_matched := true,
               burrow_attestation := some (attSummary corpus_hw_match),
               match_status := "corpus_headword_match" }
    | none =>
      let meaning_match : Option LanguageAttestation :=
        if row.meaning ≠ "" then
          if st.corpus_loaded then
            lookup_in_corpus_by_meaning st.corpus_attestations_by_headword
              row.meaning row.language row.headword
          else web.meaning_match row.meaning row.language row.headword
        else none
      match meaning_match with
      | some m =>
        { v with burrow_found := true, burrow_language_matched := true,
                 burrow_headword_matched := true,
                 burrow_attestation := some (attSummary m),
                 match_status := "meaning_match" }
      | none => v

end Burrow

namespace Burrow

/-! ### `burrow_corpus_scraper.py` -/

/-- The mutable state of `BurrowCorpusScraper` relevant to corpus
construction: the in-memory entry store and completed-page set, plus the
contents of the persisted corpus and checkpoint files (written by
`_save_corpus` / `_save_checkpoint`, read back by
`_load_existing_corpus` / `_load_checkpoint`).  Entries are kept
abstract (`α`): one scraped entry dict. -/
structure ScraperState (α : Type) where
  entries : List α
  completed_pages : Finset Nat
  saved_entries : List α
  saved_completed : Finset Nat
  deriving DecidableEq

/-- A freshly constructed scraper with no corpus/checkpoint files on
disk. -/
def freshScraper (α : Type) : ScraperState α :=
  { entries := [], completed_pages := ∅,
    saved_entries := [], saved_completed := ∅ }

/-- A scraper constructed while persisted files exist: `__init__` runs
`_load_existing_corpus` and `_load_checkpoint`, so the live store and
completed-page set start from the persisted copies. -/
def resumedScraper {α : Type} (st : ScraperState α) : ScraperState α :=
  { entries := st.saved_entries, completed_pages := st.saved_completed,
    saved_entries := st.saved_entries,
    saved_completed := st.saved_completed }

/-- Model of `BurrowCorpusScraper.scrape_page`, with the fetch-and-extract front
end (`fetch_with_retry` + HTML parsing + `_extract_entries_from_result_div`)
abstracted as the deterministic oracle `pageResult` (`none`: the fetch
ultimately failed, in which case the code returns without marking the
page completed or saving).  On success the extracted entries are
appended (only when non-empty, as in the code), the page is added to
`completed_pages`, and `_save_corpus` / `_save_checkpoint` persist the
live state.  The second component is ghost instrumentation recording
which pages were actually fetched (and hence parsed). -/
def scrape_page {α : Type} (pageResult : Nat → Option (List α))
    (st : ScraperState α) (page : Nat) : ScraperState α × List Nat :=
  if page ∈ st.completed_pages then (st, [])
  else
    match pageResult page with
    | none => (st, [page])
    | some new_entries =>
      let entries :=
        if new_entries.isEmpty then st.entries else st.entries ++ new_entries
      let completed := insert page st.completed_pages
      ({ entries := entries, completed_pages := completed,
         saved_entries := entries, saved_completed := completed },
       [page])

/-- Run `scrape_page` over a list of pages, accumulating the fetch
log. -/
def scrape_pages {α : Type} (pageResult : Nat → Option (List α))
    (st : ScraperState α) : List Nat → ScraperState α × List Nat
  | [] => (st, [])
  | p :: ps =>
    let r := scrape_page pageResult st p
    let rest := scrape_pages pageResult r.1 ps
    (rest.1, r.2 ++ rest.2)

/-- Model of `BurrowCorpusScraper.scrape_all` over pages `start_page..end_page`,
here `1..n` (`List.range' 1 n = [1, 2, ..., n]`). -/
def scrape_all {α : Type} (pageResult : Nat → Option (List α))
    (st : ScraperState α) (n : Nat) : ScraperState α × List Nat :=
  scrape_pages pageResult st (List.range' 1 n)

end Burrow

namespace Burrow

/-! ### Association-list dictionary lemmas -/

theorem getRefs_nil {α : Type} (k : String) : getRefs ([] : List (String × List α)) k = [] := rfl

theorem getRefs_dictAppend_self {α : Type} (d : List (String × List α)) (k : String) (v : α) :
    getRefs (dictAppend d k v) k = getRefs d k ++ [v] := by
  induction d with
  | nil => simp [dictAppend, getRefs, dictFind?, List.find?]
  | cons kv rest ih =>
    by_cases h : kv.1 = k
    · subst h
      simp [dictAppend, getRefs, dictFind?, List.find?]
    · simp [dictAppend, getRefs, dictFind?, List.find?, h] at ih ⊢
      exact ih

theorem getRefs_dictAppend_ne {α : Type} (d : List (String × List α)) (k k' : String) (v : α)
    (h : k' ≠ k) : getRefs (dictAppend d k v) k' = getRefs d k' := by
  induction d with
  | nil => simp [dictAppend, getRefs, dictFind?, List.find?, Ne.symm h]
  | cons kv rest ih =>
    by_cases hk : kv.1 = k
    · subst hk
      have hne : ¬ kv.1 = k' := fun hc => h hc.symm
      simp [dictAppend, getRefs, dictFind?, List.find?, hne]
    · by_cases hk' : kv.1 = k'
      · simp [dictAppend, getRefs, dictFind?, List.find?, hk, hk', h]
      · simp [dictAppend, getRefs, dictFind?, List.find?, hk, hk', h] at ih ⊢
        exact ih

theorem mem_getRefs_dictAppend {α : Type} (d : List (String × List α)) (k k' : String)
    (v x : α) (h : x ∈ getRefs d k') : x ∈ getRefs (dictAppend d k v) k' := by
  by_cases hk : k' = k
  · subst hk; rw [getRefs_dictAppend_self]; exact List.mem_append_left _ h
  · rwa [getRefs_dictAppend_ne _ _ _ _ hk]

theorem getRefs_dictAppend_ne_nil {α : Type} (d : List (String × List α)) (k k' : String)
    (v : α) :
    getRefs (dictAppend d k v) k' ≠ [] ↔ getRefs d k' ≠ [] ∨ k' = k := by
  by_cases hk : k' = k
  · subst hk; rw [getRefs_dictAppend_self]; simp
  · rw [getRefs_dictAppend_ne _ _ _ _ hk]; simp [hk]

end Burrow

namespace Burrow

/-! ### Concrete fixtures -/

/-- The Tamil attestation of DED 45 from the parser's own sample entry. -/
def attTonnai : LanguageAttestation :=
  { language_abbrev := "Ta.", language_name := "Tamil",
    headwords := ["toṉṉai"], gloss := "cup made of plantain or other leaf",
    source_text := "Ta. toṉṉai" }

/-- A one-entry corpus document whose entry carries DED number `"45"`. -/
def rawEntry45 : RawCorpusEntry :=
  { page := some 4, ded_number := some "45",
    attestations_data := [some attTonnai] }

/-! ### Keys of the by-DED index -/

theorem load_step_fst_keys (acc) (raw : RawCorpusEntry) (k : String) :
    getRefs (load_corpus_step acc raw).1 k ≠ [] ↔
      getRefs acc.1 k ≠ [] ∨ raw.ded_number = some k := by
  unfold load_corpus_step
  cases hd : raw.ded_number with
  | none => simp
  | some d =>
    simp only
    rw [getRefs_dictAppend_ne_nil]
    constructor
    · intro h
      rcases h with h | h
      · exact Or.inl h
      · exact Or.inr (by rw [h])
    · intro h
      rcases h with h | h
      · exact Or.inl h
      · exact Or.inr (by injection h with h; exact h.symm)

theorem load_foldl_fst_keys (raws : List RawCorpusEntry) (acc) (k : String) :
    getRefs (raws.foldl load_corpus_step acc).1 k ≠ [] ↔
      getRefs acc.1 k ≠ [] ∨ ∃ e ∈ raws, e.ded_number = some k := by
  induction raws generalizing acc with
  | nil => simp
  | cons raw rest ih =>
    rw [List.foldl_cons, ih, load_step_fst_keys]
    simp only [List.mem_cons]
    constructor
    · rintro (( h | h) | ⟨e, he, hk⟩)
      · exact Or.inl h
      · exact Or.inr ⟨raw, Or.inl rfl, h⟩
      · exact Or.inr ⟨e, Or.inr he, hk⟩
    · rintro (h | ⟨e, he | he, hk⟩)
      · exact Or.inl (Or.inl h)
      · exact Or.inl (Or.inr (he ▸ hk))
      · exact Or.inr ⟨e, he, hk⟩

end Burrow

namespace Burrow

/-- C10: the catalog-exact corpus tier compares catalog numbers by raw
string equality — the by-DED index holds exactly the raw `ded_number`
strings of the loaded entries as keys, `clean_ded_number` is applied to
neither the index key nor the query — so a query differing from the
stored key only by leading zeros or a trailing `.0` (`"0045"`,
`"45.0"` versus `"45"`) retrieves no candidate entries even though the
raw key itself hits. -/
theorem ded_index_uses_raw_keys :
    (∀ (raws : List RawCorpusEntry) (k : String),
       getRefs (load_burrow_corpus raws).1 k ≠ [] ↔
         ∃ e ∈ raws, e.ded_number = some k)
    ∧ lookup_in_corpus_by_ded (load_burrow_corpus [rawEntry45]).1 "45"
        "Tamil" "toṉṉai" = some attTonnai
    ∧ lookup_in_corpus_by_ded (load_burrow_corpus [rawEntry45]).1 "0045"
        "Tamil" "toṉṉai" = none
    ∧ lookup_in_corpus_by_ded (load_burrow_corpus [rawEntry45]).1 "45.0"
        "Tamil" "toṉṉai" = none
    ∧ getRefs (load_burrow_corpus [rawEntry45]).1 "0045" = []
    ∧ getRefs (load_burrow_corpus [rawEntry45]).1 "45.0" = []
    ∧ clean_ded_number "0045" = "45"
    ∧ clean_ded_number "45.0" = "45" := by
  refine ⟨?_, ?_, ?_, ?_, ?_, ?_, ?_, ?_⟩
  · intro raws k
    unfold load_burrow_corpus
    rw [load_foldl_fst_keys]
    simp [getRefs, dictFind?]
  · rfl
  · rfl
  · rfl
  · rfl
  · rfl
  · rfl
  · rfl

end Burrow

namespace Burrow

/-- A web oracle that never finds anything (no record under test should
reach it). -/
def noWeb : WebOracle :=
  { ded_attestations := fun _ => none, meaning_match := fun _ _ _ => none }

/-- A Starling record carrying DED number `"45"` and the Tamil headword
`toṉṉai`. -/
def rowTonnai : StarlingRecord :=
  { id := "1", headword := "toṉṉai", meaning := "", language := "Tamil",
    ded_number := some "45" }

/-- C1: tier precedence.  Whenever the record has a DED number and the
catalog-exact corpus tier (`_lookup_in_corpus_by_ded`) finds a matching
attestation, `validate_entry` returns the `full_match` result carrying
that attestation immediately; the result is stated for an arbitrary
by-headword index, `corpus_loaded` flag and web oracle, none of which
occur on the right-hand side — the headword-index tier and the meaning
tier are therefore never consulted for such a record. -/
theorem tier_precedence_full_match :
    ∀ (ded_idx : List (String × List CorpusEntry))
      (hw_idx : List (String × List HeadwordRef)) (loaded : Bool)
      (web : WebOracle) (row : StarlingRecord) (d : String)
      (att : LanguageAttestation),
      row.ded_number = some d →
      lookup_in_corpus_by_ded ded_idx d row.language row.headword = some att →
      validate_entry
          { corpus_entries_by_ded := ded_idx,
            corpus_attestations_by_headword := hw_idx,
            corpus_loaded := loaded } web row =
        { initValidation row with
            burrow_found := true, burrow_language_matched := true,
            burrow_headword_matched := true,
            burrow_attestation := some (attSummary att),
            match_status := "full_match" } := by
  intro ded_idx hw_idx loaded web row d att hrow hlook
  unfold validate_entry validateStep1
  simp only [hrow, hlook]

/-- Witness for C1 at a concrete corpus, record and (never-consulted)
oracle. -/
theorem tier_precedence_full_match_witness :
    validate_entry
        { corpus_entries_by_ded := (load_burrow_corpus [rawEntry45]).1,
          corpus_attestations_by_headword := (load_burrow_corpus [rawEntry45]).2,
          corpus_loaded := true } noWeb rowTonnai =
      { initValidation rowTonnai with
          burrow_found := true, burrow_language_matched := true,
          burrow_headword_matched := true,
          burrow_attestation := some (attSummary attTonnai),
          match_status := "full_match" } :=
  tier_precedence_full_match (load_burrow_corpus [rawEntry45]).1
    (load_burrow_corpus [rawEntry45]).2 true noWeb rowTonnai "45" attTonnai
    rfl (by rfl)

end Burrow

namespace Burrow

/-- The catalog-tier matching predicate as §4.1/§4.3 of the spec
describe it, for comparison with `find_matching_attestation`: some
attestation has a language accepted by `match_language_variant` and a
headword whose §4.1 normalization (`_normalize_headword_for_index`)
equals, contains, or is contained in the normalization of the record
headword. -/
def spec_normalized_match (attestations : List LanguageAttestation)
    (starling_language starling_headword : String) : Bool :=
  attestations.any (fun attestation =>
    match_language_variant attestation.language_abbrev starling_language ∧
    attestation.headwords.any (fun burrow_headword =>
      let b := normalize_headword_for_index burrow_headword
      let s := normalize_headword_for_index starling_headword
      b = s ∨ pySubstr b s ∨ pySubstr s b))

/-- Counterexample to C2: on the attested headword `toṉṉai` and the
record headword `tonnai` the spec's normalized comparison matches (both
normalize to `tonnai`), but `find_matching_attestation`, which
lowercases without NFKD/diacritic removal, finds nothing. -/
theorem headword_match_not_diacritic_insensitive :
    spec_normalized_match [attTonnai] "Tamil" "tonnai" = true ∧
    find_matching_attestation [attTonnai] "Tamil" "tonnai" = none := by
  constructor <;> rfl

/-- C2 (amended): `find_matching_attestation` returns a match exactly
when some attestation has a language accepted by
`match_language_variant` and some attested headword passes
`code_headword_match` — i.e. stripped-and-lowercased equality or
substring containment in either direction, case-insensitive but not
diacritic-insensitive (the §4.1 NFKD normalization is applied to
neither side). -/
theorem find_matching_attestation_iff :
    ∀ (attestations : List LanguageAttestation)
      (starling_language starling_headword : String),
      (find_matching_attestation attestations starling_language
          starling_headword).isSome = true ↔
      ∃ att ∈ attestations,
        match_language_variant att.language_abbrev starling_language = true ∧
        ∃ bh ∈ att.headwords,
          code_headword_match starling_headword bh = true := by
  intro attestations starling_language starling_headword
  unfold find_matching_attestation
  rw [List.find?_isSome]
  simp [List.any_eq_true]

end Burrow

namespace Burrow

/-- Counterexample to C7: `normalize_language` is applied only to the
first argument of `match_language_variant`, so both table-driven pairs
named by the claim break symmetry when swapped. -/
theorem match_language_variant_asymmetric :
    match_language_variant "Ta." "Tamil" false = true ∧
    match_language_variant "Tamil" "Ta." false = false ∧
    match_language_variant "Go." "Maria Gondi" false = true ∧
    match_language_variant "Maria Gondi" "Go." false = false := by
  exact ⟨rfl, rfl, rfl, rfl⟩

/-- C7 (amended): `match_language_variant` is symmetric on designators
that `normalize_language` leaves unchanged (i.e. that are not Burrow
abbreviations); the asymmetry of the original claim comes solely from
canonicalizing only the first argument. -/
theorem match_language_variant_symm :
    ∀ (a b : String) (strict : Bool),
      normalize_language a = a → normalize_language b = b →
      match_language_variant a b strict = match_language_variant b a strict := by
  intro a b strict ha hb
  unfold match_language_variant
  simp only [ha, hb]
  by_cases hab : a = b
  · rw [if_pos hab, if_pos hab.symm]
  · have hba : ¬ b = a := fun h => hab h.symm
    rw [if_neg hab, if_neg hba]
    have hfun : (fun bv : String × List String =>
        decide ((a = bv.1 ∧ bv.2.contains b = true) ∨
          (bv.2.contains a = true ∧ b = bv.1) ∨
          (bv.2.contains a = true ∧ bv.2.contains b = true))) =
        (fun bv : String × List String =>
        decide ((b = bv.1 ∧ bv.2.contains a = true) ∨
          (bv.2.contains b = true ∧ a = bv.1) ∨
          (bv.2.contains b = true ∧ bv.2.contains a = true))) := by
      funext bv
      rw [decide_eq_decide]
      tauto
    rw [hfun]
    by_cases hany : (STARLING_VARIANTS.any (fun bv =>
        decide ((b = bv.1 ∧ bv.2.contains a = true) ∨
          (bv.2.contains b = true ∧ a = bv.1) ∨
          (bv.2.contains b = true ∧ bv.2.contains a = true)))) = true
    · rw [if_pos hany, if_pos hany]
    · rw [if_neg hany, if_neg hany]
      by_cases hs : strict = true
    
      · rw [if_neg (fun hc => hc hs), if_neg (fun hc => hc hs)]
      · rw [if_pos hs, if_pos hs]
        by_cases hc : pySubstr (pyLowerStr a) (pyLowerStr b) = true ∨
            pySubstr (pyLowerStr b) (pyLowerStr a) = true
        · rw [if_pos hc, if_pos (Or.symm hc), Nat.min_comm]
        · rw [if_neg hc, if_neg (fun h => hc (Or.symm h))]

end Burrow

namespace Burrow

/-- Witness for the amended C7 at a concrete non-abbreviation pair. -/
theorem match_language_variant_symm_witness :
    match_language_variant "Gondi" "Maria Gondi" false =
      match_language_variant "Maria Gondi" "Gondi" false :=
  match_language_variant_symm "Gondi" "Maria Gondi" false rfl rfl

/-- A Tamil attestation with headword `ilai`. -/
def attIlai : LanguageAttestation :=
  { language_abbrev := "Ta.", language_name := "Tamil",
    headwords := ["ilai"], gloss := "leaf", source_text := "Ta. ilai" }

/-- A by-headword index holding only `attIlai` under its normalized
headword. -/
def hwIndexIlai : List (String × List HeadwordRef) :=
  [("ilai", [{ attestation := attIlai, ded_number := some "497",
               page := some 40 }])]

/-- Counterexample to C5: with record language `"il"` (two characters)
the canonical matcher rejects every reference (`match_language_variant
"Ta." "il"` is false — the substring heuristic requires an overlap of
at least 4), yet `_lookup_in_corpus_by_headword` still returns the
attestation through its second, name-containment fallback loop, which
has no minimum-overlap requirement. -/
theorem headword_tier_accepts_noncanonical :
    match_language_variant "Ta." "il" false = false ∧
    lookup_in_corpus_by_headword hwIndexIlai "il" "ilai" = some attIlai := by
  exact ⟨rfl, rfl⟩

/-- C5 (amended): `_lookup_in_corpus_by_headword` returns an attestation
only if it comes from the reference list retrieved under the normalized
record headword and either its language passes `match_language_variant`,
or no retrieved reference passes `match_language_variant` and its full
language name and the record language contain one another
case-insensitively (a weaker fallback with no length floor). -/
theorem lookup_by_headword_acceptance :
    ∀ (idx : List (String × List HeadwordRef)) (language headword : String)
      (att : LanguageAttestation),
      lookup_in_corpus_by_headword idx language headword = some att →
      (∃ ref ∈ headword_query_refs idx headword, ref.attestation = att) ∧
      (match_language_variant att.language_abbrev language = true ∨
       ((∀ ref ∈ headword_query_refs idx headword,
           match_language_variant ref.attestation.language_abbrev language
             = false) ∧
        (pySubstr (pyLowerStr language) (pyLowerStr att.language_name) = true ∨
         pySubstr (pyLowerStr att.language_name) (pyLowerStr language)
           = true))) := by
  intro idx language headword att h
  unfold lookup_in_corpus_by_headword at h
  by_cases hempty : idx.isEmpty
  · rw [if_pos hempty] at h
    cases h
  · rw [if_neg hempty] at h
    simp only at h
    by_cases hre : (headword_query_refs idx headword).isEmpty
    · rw [if_pos hre] at h
      cases h
    · rw [if_neg hre] at h
      cases hfind : (headword_query_refs idx headword).find? (fun ref =>
          match_language_variant ref.attestation.language_abbrev language) with
      | some ref =>
        simp only [hfind] at h
        have hmem := List.mem_of_find?_eq_some hfind
        have hpred := List.find?_some hfind
        injection h with h
        subst h
        refine ⟨⟨ref, hmem, rfl⟩, Or.inl ?_⟩
        simpa using hpred
      | none =>
        have hall := List.find?_eq_none.mp hfind
        simp only [hfind] at h
        cases hfind2 : (headword_query_refs idx headword).find? (fun ref =>
            decide (pySubstr (pyLowerStr language)
              (pyLowerStr ref.attestation.language_name) = true ∨
            pySubstr (pyLowerStr ref.attestation.language_name)
              (pyLowerStr language) = true)) with
        | some ref =>
          simp only [hfind2] at h
          have hmem := List.mem_of_find?_eq_some hfind2
          have hpred := List.find?_some hfind2
          injection h with h
          subst h
          refine ⟨⟨ref, hmem, rfl⟩, Or.inr ⟨?_, ?_⟩⟩
          · intro r hr
            have := hall r hr
            simpa using this
          · simpa using hpred
        | none =>
          simp only [hfind2] at h
          cases h

end Burrow

namespace Burrow

/-- Witness for the amended C5 at a concrete index and record. -/
theorem lookup_by_headword_acceptance_witness :
    (∃ ref ∈ headword_query_refs hwIndexIlai "ilai",
        ref.attestation = attIlai) ∧
    (match_language_variant attIlai.language_abbrev "Tamil" = true ∨
     ((∀ ref ∈ headword_query_refs hwIndexIlai "ilai",
         match_language_variant ref.attestation.language_abbrev "Tamil"
           = false) ∧
      (pySubstr (pyLowerStr "Tamil") (pyLowerStr attIlai.language_name)
          = true ∨
       pySubstr (pyLowerStr attIlai.language_name) (pyLowerStr "Tamil")
          = true))) :=
  lookup_by_headword_acceptance hwIndexIlai "Tamil" "ilai" attIlai (by rfl)

/-- A record whose DED number is absent from every fixture corpus and
which no headword or meaning lookup can resolve. -/
def rowLost : StarlingRecord :=
  { id := "2", headword := "qq", meaning := "", language := "Zz",
    ded_number := some "999" }

/-- The workflow state after loading the one-entry corpus. -/
def loadedState45 : WorkflowState :=
  { corpus_entries_by_ded := (load_burrow_corpus [rawEntry45]).1,
    corpus_attestations_by_headword := (load_burrow_corpus [rawEntry45]).2,
    corpus_loaded := true }

/-- Counterexample to C4: with a loaded corpus, a record whose DED
number is absent from the by-DED index (and which no other tier
resolves) ends with status `no_attestation_match`, not the
claimed `ded_not_found`. -/
theorem absent_ded_status_counterexample :
    loadedState45.corpus_loaded = true ∧
    dictFind? loadedState45.corpus_entries_by_ded "999" = none ∧
    rowLost.ded_number = some "999" ∧
    (validate_entry loadedState45 noWeb rowLost).match_status
      = "no_attestation_match" ∧
    "no_attestation_match" ≠ "ded_not_found" := by
  refine ⟨rfl, rfl, rfl, rfl, by decide⟩

/-- C4 (amended): terminal classification by cause.  When the corpus is
loaded, a record with a DED number that the catalog-exact tier cannot
resolve — whether the number is absent from the index or present
without a matching attestation — and that the headword and meaning
tiers also fail ends as `no_attestation_match` (the absent/present
distinction is recorded only in the diagnostic notes); the
`ded_not_found` status arises only on the live-web path, when no corpus
is loaded and the DED query finds no entry. -/
theorem terminal_status_classification :
    (∀ (st : WorkflowState) (web : WebOracle) (row : StarlingRecord)
       (d : String),
       row.ded_number = some d →
       st.corpus_loaded = true →
       lookup_in_corpus_by_ded st.corpus_entries_by_ded d row.language
         row.headword = none →
       lookup_in_corpus_by_headword st.corpus_attestations_by_headword
         row.language row.headword = none →
       (row.meaning = "" ∨
        lookup_in_corpus_by_meaning st.corpus_attestations_by_headword
          row.meaning row.language row.headword = none) →
       (validate_entry st web row).match_status = "no_attestation_match")
    ∧ (∀ (st : WorkflowState) (web : WebOracle) (row : StarlingRecord)
       (d : String),
       row.ded_number = some d →
       st.corpus_loaded = false →
       lookup_in_corpus_by_ded st.corpus_entries_by_ded d row.language
         row.headword = none →
       web.ded_attestations d = none →
       lookup_in_corpus_by_headword st.corpus_attestations_by_headword
         row.language row.headword = none →
       (row.meaning = "" ∨
        web.meaning_match row.meaning row.language row.headword = none) →
       (validate_entry st web row).match_status = "ded_not_found") := by
  constructor
  · intro st web row d hrow hloaded hded hhw hm
    have hstep : ∃ v, validateStep1 st web row = Step1Result.cont v ∧
        v.match_status = "no_attestation_match" := by
      unfold validateStep1
      simp only [hrow, hded, hloaded, not_true, if_false]
      cases hdf : dictFind? st.corpus_entries_by_ded d with
      | none => simp only [hdf]; exact ⟨_, rfl, rfl⟩
      | some l =>
        cases l with
        | nil => simp only [hdf]; exact ⟨_, rfl, rfl⟩
        | cons e es =>
          simp only [hdf]
          by_cases hl : (e.attestations.filter (fun att =>
              match_language_variant att.language_abbrev row.language)).isEmpty
          · simp only [hl]
            exact ⟨_, rfl, rfl⟩
          · simp only [hl]
            exact ⟨_, rfl, rfl⟩
    obtain ⟨v, hstep, hstat⟩ := hstep
    unfold validate_entry
    simp only [hstep, hhw]
    rcases hm with hm | hm
    · simp only [hm]
      simpa using hstat
    · by_cases hme : row.meaning = ""
      · simp only [hme]
        simpa using hstat
      · simp only [hme, hloaded, hm]
        simpa using hstat
  · intro st web row d hrow hloaded hded hweb hhw hm
    have hstep : validateStep1 st web row =
        Step1Result.cont
          { initValidation row with match_status := "ded_not_found" } := by
      unfold validateStep1
      simp [hrow, hded, hloaded, hweb]
    unfold validate_entry
    simp only [hstep, hhw]
    rcases hm with hm | hm
    · simp only [hm]
      simp
    · by_cases hme : row.meaning = ""
      · simp only [hme]
        simp
      · simp only [hme, hloaded, hm]
        simp

end Burrow

namespace Burrow

/-- Witness for the amended C4 (corpus-loaded conjunct) at a concrete
state and record. -/
theorem terminal_status_classification_witness :
    (validate_entry loadedState45 noWeb rowLost).match_status
      = "no_attestation_match" :=
  terminal_status_classification.1 loadedState45 noWeb rowLost "999"
    rfl rfl (by rfl) (by rfl) (Or.inl rfl)

/-- C8: every attestation produced by `parse_language_sections` is
well-formed — non-empty headword list whose members are longer than one
character and do not begin with `(`, gloss at most 200 characters, and
a language token that (with trailing dots stripped) is not on the
denylist — and a marker none of whose headword candidates survives the
filters contributes no attestation at all. -/
theorem parse_language_sections_wellformed :
    (∀ (ms : List LanguageMarker) (att : LanguageAttestation),
       att ∈ parse_language_sections ms →
       att.headwords ≠ [] ∧
       (∀ hw ∈ att.headwords,
          hw.length > 1 ∧ pyStartswithParen hw = false) ∧
       att.gloss.length ≤ 200 ∧
       invalid_langs.contains (rstripDots att.language_abbrev) = false)
    ∧ (∀ (pre post : List LanguageMarker) (m : LanguageMarker),
       surviving_headwords m.headword_text = [] →
       parse_language_sections (pre ++ m :: post)
         = parse_language_sections (pre ++ post)) := by
  constructor
  · intro ms att hmem
    unfold parse_language_sections at hmem
    rw [List.mem_filterMap] at hmem
    obtain ⟨m, _, hM⟩ := hmem
    unfold marker_attestation at hM
    by_cases hden : invalid_langs.contains (rstripDots m.lang_abbrev)
    · rw [if_pos hden] at hM
      cases hM
    · rw [if_neg hden] at hM
      by_cases hsurv : (surviving_headwords m.headword_text).isEmpty
      · rw [if_pos hsurv] at hM
        cases hM
      · rw [if_neg hsurv] at hM
        injection hM with hM
        subst hM
        refine ⟨?_, ?_, ?_, ?_⟩
        · intro hnil
          have hnil2 : surviving_headwords m.headword_text = [] := hnil
          exact hsurv (by rw [hnil2]; rfl)
        · intro hw hhw
          have hmem2 : hw ∈ surviving_headwords m.headword_text := hhw
          unfold surviving_headwords at hmem2
          rw [List.mem_filter] at hmem2
          have := hmem2.2
          simp only [decide_eq_true_eq] at this
          exact ⟨this.2.1, this.2.2⟩
        · show (String.mk (m.gloss_text.data.take 200)).length ≤ 200
          have h200 : (m.gloss_text.data.take 200).length ≤ 200 := by
            rw [List.length_take]
            exact min_le_left _ _
          exact h200
        · show invalid_langs.contains (rstripDots m.lang_abbrev) = false
          simpa using hden
  · intro pre post m hsurv
    unfold parse_language_sections
    rw [List.filterMap_append, List.filterMap_cons, List.filterMap_append]
    have hnone : marker_attestation m = none := by
      unfold marker_attestation
      by_cases hden : invalid_langs.contains (rstripDots m.lang_abbrev)
      · rw [if_pos hden]
      · rw [if_neg hden]
        rw [if_pos (by simp [hsurv])]
    rw [hnone]

end Burrow

namespace Burrow

/-- A well-formed language marker as the regex produces it. -/
def markerTa : LanguageMarker :=
  { lang_abbrev := "Ta.", headword_text := " toṉṉai",
    gloss_text := "cup made of plantain or other leaf." }

/-- The attestation `marker_attestation` builds from `markerTa`. -/
def attFromMarker : LanguageAttestation :=
  { language_abbrev := "Ta.", language_name := "Tamil",
    headwords := ["toṉṉai"], gloss := "cup made of plantain or other leaf.",
    source_text := "Ta. toṉṉai" }

/-- A marker none of whose headword candidates survives the filters. -/
def markerNoSurvivor : LanguageMarker :=
  { lang_abbrev := "Ta.", headword_text := "(aa), x", gloss_text := "g" }

/-- Witness for C8: both conjuncts applied at concrete markers. -/
theorem parse_language_sections_wellformed_witness :
    (attFromMarker.headwords ≠ [] ∧
     (∀ hw ∈ attFromMarker.headwords,
        hw.length > 1 ∧ pyStartswithParen hw = false) ∧
     attFromMarker.gloss.length ≤ 200 ∧
     invalid_langs.contains (rstripDots attFromMarker.language_abbrev)
       = false) ∧
    parse_language_sections [markerNoSurvivor] = parse_language_sections [] :=
  ⟨parse_language_sections_wellformed.1 [markerTa] attFromMarker (by decide),
   parse_language_sections_wellformed.2 [] [] markerNoSurvivor (by decide)⟩

end Burrow

namespace Burrow

/-! ### Index completeness (C3) -/

theorem hwFold_mono (hws : List String) (m : List (String × List HeadwordRef))
    (r : HeadwordRef) (k : String) (x : HeadwordRef)
    (h : x ∈ getRefs m k) :
    x ∈ getRefs (hws.foldl (fun m hw =>
      dictAppend m (normalize_headword_for_index hw) r) m) k := by
  induction hws generalizing m with
  | nil => exact h
  | cons hw0 rest ih =>
    rw [List.foldl_cons]
    exact ih _ (mem_getRefs_dictAppend _ _ _ _ _ h)

theorem hwFold_mem (hws : List String) (m : List (String × List HeadwordRef))
    (r : HeadwordRef) (hw : String) :
    hw ∈ hws →
    r ∈ getRefs (hws.foldl (fun m hw =>
      dictAppend m (normalize_headword_for_index hw) r) m)
      (normalize_headword_for_index hw) := by
  induction hws generalizing m with
  | nil => intro h; cases h
  | cons hw0 rest ih =>
    intro h
    rw [List.foldl_cons]
    rcases List.mem_cons.mp h with h0 | h0
    · subst h0
      apply hwFold_mono
      rw [getRefs_dictAppend_self]
      exact List.mem_append_right _ (List.mem_singleton.mpr rfl)
    · exact ih _ h0

theorem attFold_mono (atts : List LanguageAttestation)
    (m : List (String × List HeadwordRef)) (dn : Option String)
    (pg : Option Nat) (k : String) (x : HeadwordRef)
    (h : x ∈ getRefs m k) :
    x ∈ getRefs (atts.foldl (fun m att =>
      att.headwords.foldl (fun m hw =>
        dictAppend m (normalize_headword_for_index hw)
          { attestation := att, ded_number := dn, page := pg }) m) m) k := by
  induction atts generalizing m with
  | nil => exact h
  | cons a rest ih =>
    rw [List.foldl_cons]
    exact ih _ (hwFold_mono _ _ _ _ _ h)

theorem attFold_mem (atts : List LanguageAttestation)
    (m : List (String × List HeadwordRef)) (dn : Option String)
    (pg : Option Nat) (att : LanguageAttestation) (hw : String)
    (hhw : hw ∈ att.headwords) :
    att ∈ atts →
    ({ attestation := att, ded_number := dn, page := pg } : HeadwordRef)
      ∈ getRefs (atts.foldl (fun m att =>
        att.headwords.foldl (fun m hw =>
          dictAppend m (normalize_headword_for_index hw)
            { attestation := att, ded_number := dn, page := pg }) m) m)
        (normalize_headword_for_index hw) := by
  induction atts generalizing m with
  | nil => intro h; cases h
  | cons a rest ih =>
    intro hatt
    rw [List.foldl_cons]
    rcases List.mem_cons.mp hatt with h0 | h0
    · subst h0
      apply attFold_mono
      exact hwFold_mem _ _ _ _ hhw
    · exact ih _ h0

theorem load_step_snd_mono (acc) (raw : RawCorpusEntry) (k : String)
    (x : HeadwordRef) (h : x ∈ getRefs acc.2 k) :
    x ∈ getRefs (load_corpus_step acc raw).2 k := by
  unfold load_corpus_step
  exact attFold_mono _ _ _ _ _ _ h

theorem load_step_snd_mem (acc) (raw : RawCorpusEntry)
    (att : LanguageAttestation) (hw : String)
    (hatt : (some att) ∈ raw.attestations_data) (hhw : hw ∈ att.headwords) :
    ({ attestation := att, ded_number := raw.ded_number, page := raw.page }
        : HeadwordRef)
      ∈ getRefs (load_corpus_step acc raw).2
        (normalize_headword_for_index hw) := by
  unfold load_corpus_step
  apply attFold_mem _ _ _ _ _ _ hhw
  rw [List.mem_filterMap]
  exact ⟨some att, hatt, rfl⟩

theorem load_foldl_snd_mono (raws : List RawCorpusEntry) (acc) (k : String)
    (x : HeadwordRef) (h : x ∈ getRefs acc.2 k) :
    x ∈ getRefs ((raws.foldl load_corpus_step acc).2) k := by
  induction raws generalizing acc with
  | nil => exact h
  | cons raw rest ih =>
    rw [List.foldl_cons]
    exact ih _ (load_step_snd_mono _ _ _ _ h)

theorem load_foldl_snd_mem (raws : List RawCorpusEntry) (acc)
    (e : RawCorpusEntry) (att : LanguageAttestation) (hw : String)
    (hatt : (some att) ∈ e.attestations_data)
    (hhw : hw ∈ att.headwords) :
    e ∈ raws →
    ({ attestation := att, ded_number := e.ded_number, page := e.page }
        : HeadwordRef)
      ∈ getRefs ((raws.foldl load_corpus_step acc).2)
        (normalize_headword_for_index hw) := by
  induction raws generalizing acc with
  | nil => intro he; cases he
  | cons raw rest ih =>
    intro he
    rw [List.foldl_cons]
    rcases List.mem_cons.mp he with h0 | h0
    · subst h0
      exact load_foldl_snd_mono rest _ _ _
        (load_step_snd_mem acc e att hw hatt hhw)
    · exact ih _ h0

/-- C3: index completeness with identical build-time and query-time
normalization.  After `load_burrow_corpus`, every headword of every
attestation of every loaded entry is indexed under its
`_normalize_headword_for_index` image as a reference carrying that
attestation; and the reference list `_lookup_in_corpus_by_headword`
retrieves for any query string with the same normalized image is
exactly that indexed list. -/
theorem index_completeness :
    ∀ (raws : List RawCorpusEntry) (e : RawCorpusEntry)
      (att : LanguageAttestation) (hw : String),
      e ∈ raws → (some att) ∈ e.attestations_data → hw ∈ att.headwords →
      ({ attestation := att, ded_number := e.ded_number, page := e.page }
          : HeadwordRef)
        ∈ getRefs (load_burrow_corpus raws).2
            (normalize_headword_for_index hw) ∧
      ∀ q : String,
        normalize_headword_for_index q = normalize_headword_for_index hw →
        headword_query_refs (load_burrow_corpus raws).2 q =
          getRefs (load_burrow_corpus raws).2
            (normalize_headword_for_index hw) := by
  intro raws e att hw he hatt hhw
  constructor
  · exact load_foldl_snd_mem raws ([], []) e att hw hatt hhw he
  · intro q hq
    unfold headword_query_refs
    rw [hq]

/-- Witness for C3 at the one-entry fixture corpus. -/
theorem index_completeness_witness :
    ({ attestation := attTonnai, ded_number := rawEntry45.ded_number,
       page := rawEntry45.page } : HeadwordRef)
      ∈ getRefs (load_burrow_corpus [rawEntry45]).2
          (normalize_headword_for_index "toṉṉai") ∧
    ∀ q : String,
      normalize_headword_for_index q
        = normalize_headword_for_index "toṉṉai" →
      headword_query_refs (load_burrow_corpus [rawEntry45]).2 q =
        getRefs (load_burrow_corpus [rawEntry45]).2
          (normalize_headword_for_index "toṉṉai") :=
  index_completeness [rawEntry45] rawEntry45 attTonnai "toṉṉai"
    (List.mem_singleton.mpr rfl) (List.mem_singleton.mpr rfl)
    (List.mem_singleton.mpr rfl)

end Burrow

namespace Burrow

/-! ### Resumable corpus construction (C9) -/

/-- The persisted copies agree with the live state (holds at every page
boundary: `_save_corpus`/`_save_checkpoint` persist precisely the live
store whenever it changes). -/
def savedLive {α : Type} (st : ScraperState α) : Prop :=
  st.saved_entries = st.entries ∧ st.saved_completed = st.completed_pages

theorem scrape_page_savedLive {α : Type} (f : Nat → Option (List α))
    (st : ScraperState α) (p : Nat) (h : savedLive st) :
    savedLive (scrape_page f st p).1 := by
  unfold scrape_page
  by_cases hc : p ∈ st.completed_pages
  · rw [if_pos hc]; exact h
  · rw [if_neg hc]
    cases f p with
    | none => exact h
    | some l => exact ⟨rfl, rfl⟩

theorem scrape_pages_savedLive {α : Type} (f : Nat → Option (List α))
    (st : ScraperState α) (pages : List Nat) (h : savedLive st) :
    savedLive (scrape_pages f st pages).1 := by
  induction pages generalizing st with
  | nil => exact h
  | cons p ps ih => exact ih _ (scrape_page_savedLive f st p h)

theorem resumedScraper_eq_self {α : Type} (st : ScraperState α)
    (h : savedLive st) : resumedScraper st = st := by
  cases st with
  | mk e c se sc =>
    obtain ⟨h1, h2⟩ := h
    have h1e : se = e := h1
    have h2e : sc = c := h2
    subst h1e
    subst h2e
    rfl

theorem scrape_page_state_of_noop {α : Type} (f : Nat → Option (List α))
    (st : ScraperState α) (p : Nat)
    (h : p ∈ st.completed_pages ∨ f p = none) :
    (scrape_page f st p).1 = st := by
  unfold scrape_page
  by_cases hc : p ∈ st.completed_pages
  · rw [if_pos hc]
  · rw [if_neg hc]
    rcases h with h | h
    · exact absurd h hc
    · rw [h]

theorem scrape_page_completed_mono {α : Type} (f : Nat → Option (List α))
    (st : ScraperState α) (p q : Nat) (h : q ∈ st.completed_pages) :
    q ∈ (scrape_page f st p).1.completed_pages := by
  unfold scrape_page
  by_cases hc : p ∈ st.completed_pages
  · rw [if_pos hc]; exact h
  · rw [if_neg hc]
    cases f p with
    | none => exact h
    | some l => exact Finset.mem_insert_of_mem h

theorem scrape_pages_completed_mono {α : Type} (f : Nat → Option (List α))
    (st : ScraperState α) (pages : List Nat) (q : Nat)
    (h : q ∈ st.completed_pages) :
    q ∈ (scrape_pages f st pages).1.completed_pages := by
  induction pages generalizing st with
  | nil => exact h
  | cons p ps ih => exact ih _ (scrape_page_completed_mono f st p q h)

theorem scrape_pages_settles {α : Type} (f : Nat → Option (List α))
    (st : ScraperState α) (pages : List Nat) (p : Nat) :
    p ∈ pages →
    p ∈ (scrape_pages f st pages).1.completed_pages ∨ f p = none := by
  induction pages generalizing st with
  | nil => intro h; cases h
  | cons q qs ih =>
    intro h
    rcases List.mem_cons.mp h with h0 | h0
    · subst h0
      by_cases hc : p ∈ st.completed_pages
      · exact Or.inl (scrape_pages_completed_mono f _ qs p
          (scrape_page_completed_mono f st p p hc))
      · cases hf : f p with
        | none => exact Or.inr rfl
        | some l =>
          refine Or.inl (scrape_pages_completed_mono f _ qs p ?_)
          unfold scrape_page
          rw [if_neg hc, hf]
          exact Finset.mem_insert_self p _
    · exact ih _ h0

theorem scrape_pages_state_of_noop {α : Type} (f : Nat → Option (List α))
    (st : ScraperState α) (pages : List Nat)
    (h : ∀ p ∈ pages, p ∈ st.completed_pages ∨ f p = none) :
    (scrape_pages f st pages).1 = st := by
  induction pages generalizing st with
  | nil => rfl
  | cons p ps ih =>
    have h1 : (scrape_page f st p).1 = st :=
      scrape_page_state_of_noop f st p (h p (List.mem_cons_self p ps))
    show (scrape_pages f (scrape_page f st p).1 ps).1 = st
    rw [h1]
    exact ih _ (fun q hq => h q (List.mem_cons_of_mem p hq))

theorem scrape_pages_append {α : Type} (f : Nat → Option (List α))
    (st : ScraperState α) (l1 l2 : List Nat) :
    (scrape_pages f st (l1 ++ l2)).1 =
      (scrape_pages f (scrape_pages f st l1).1 l2).1 := by
  induction l1 generalizing st with
  | nil => rfl
  | cons p ps ih =>
    show (scrape_pages f (scrape_page f st p).1 (ps ++ l2)).1 = _
    rw [ih]
    rfl

/-- C9: resumable corpus construction.  First conjunct: a page already
in `completed_pages` is skipped — `scrape_page` fetches nothing (empty
fetch log, hence nothing is parsed) and leaves the state, in particular
the entry store, unchanged.  Second conjunct: with deterministic page
fetches, running over pages `1..k`, constructing a new scraper (which
reloads the saved corpus and checkpoint) and running it over `1..N`
produces exactly the state of one uninterrupted `1..N` run — the final
corpora are equal as lists of entries, hence as multisets. -/
theorem scraper_resumable :
    (∀ (α : Type) (f : Nat → Option (List α)) (st : ScraperState α)
       (p : Nat), p ∈ st.completed_pages → scrape_page f st p = (st, []))
    ∧ (∀ (α : Type) (f : Nat → Option (List α)) (N k : Nat), k ≤ N →
       (scrape_all f
           (resumedScraper (scrape_all f (freshScraper α) k).1) N).1 =
         (scrape_all f (freshScraper α) N).1) := by
  constructor
  · intro α f st p h
    unfold scrape_page
    rw [if_pos h]
  · intro α f N k hk
    have hfresh : savedLive (freshScraper α) := ⟨rfl, rfl⟩
    have hsl : savedLive (scrape_all f (freshScraper α) k).1 :=
      scrape_pages_savedLive f _ _ hfresh
    rw [resumedScraper_eq_self _ hsl]
    have hsplit : List.range' 1 N =
        List.range' 1 k ++ List.range' (1 + k) (N - k) := by
      rw [List.range'_append_1, Nat.sub_add_cancel hk]
    unfold scrape_all
    rw [hsplit, scrape_pages_append, scrape_pages_append]
    have hstable : (scrape_pages f (scrape_all f (freshScraper α) k).1
        (List.range' 1 k)).1 = (scrape_all f (freshScraper α) k).1 := by
      apply scrape_pages_state_of_noop
      intro p hp
      exact scrape_pages_settles f (freshScraper α) (List.range' 1 k) p hp
    unfold scrape_all at hstable
    rw [hstable]

/-- Witness for C9: both conjuncts at a concrete fetch oracle, page set
and interruption point. -/
theorem scraper_resumable_witness :
    scrape_page (fun p => some [p]) (scrape_all (fun p => some [p])
        (freshScraper Nat) 2).1 1 =
      ((scrape_all (fun p => some [p]) (freshScraper Nat) 2).1, []) ∧
    (scrape_all (fun p => some [p])
        (resumedScraper (scrape_all (fun p => some [p])
          (freshScraper Nat) 2).1) 3).1 =
      (scrape_all (fun p => some [p]) (freshScraper Nat) 3).1 :=
  ⟨scraper_resumable.1 Nat (fun p => some [p]) _ 1 (by decide),
   scraper_resumable.2 Nat (fun p => some [p]) 3 2 (by decide)⟩

end Burrow

namespace Burrow

/-! ### Idempotency of the headword normalizer (C6) -/

theorem foldr_pyWordsStep_nil (w : List Char)
    (h : ∀ c ∈ w, isPySpace c = false) :
    List.foldr pyWordsStep [] w = if w = [] then [] else [w] := by
  induction w with
  | nil => rfl
  | cons c cs ih =>
    have hc : isPySpace c = false := h c (List.mem_cons_self c cs)
    have hcs : ∀ x ∈ cs, isPySpace x = false :=
      fun x hx => h x (List.mem_cons_of_mem c hx)
    rw [List.foldr_cons, ih hcs]
    by_cases hnil : cs = []
    · subst hnil
      simp [pyWordsStep, hc]
    · rw [if_neg hnil, if_neg (by simp)]
      simp [pyWordsStep, hc]

theorem foldr_pyWordsStep_cons (w : List Char) (g : List Char)
    (gs : List (List Char)) (h : ∀ c ∈ w, isPySpace c = false) :
    List.foldr pyWordsStep (g :: gs) w = (w ++ g) :: gs := by
  induction w with
  | nil => rfl
  | cons c cs ih =>
    have hc : isPySpace c = false := h c (List.mem_cons_self c cs)
    have hcs : ∀ x ∈ cs, isPySpace x = false :=
      fun x hx => h x (List.mem_cons_of_mem c hx)
    rw [List.foldr_cons, ih hcs]
    simp [pyWordsStep, hc]

theorem pyWordsStep_space (a : Char) (acc : List (List Char))
    (ha : isPySpace a = true) : pyWordsStep a acc = [] :: acc := by
  unfold pyWordsStep
  rw [if_pos ha]

theorem pyWordsStep_nonspace_nil (a : Char) (ha : isPySpace a = false) :
    pyWordsStep a [] = [[a]] := by
  unfold pyWordsStep
  rw [if_neg (by simp [ha])]

theorem pyWordsStep_nonspace_cons (a : Char) (g : List Char)
    (gs : List (List Char)) (ha : isPySpace a = false) :
    pyWordsStep a (g :: gs) = (a :: g) :: gs := by
  unfold pyWordsStep
  rw [if_neg (by simp [ha])]

theorem mem_foldr_pyWordsStep (l : List Char) (w : List Char)
    (hw : w ∈ List.foldr pyWordsStep [] l) :
    ∀ c ∈ w, isPySpace c = false ∧ c ∈ l := by
  induction l generalizing w with
  | nil => cases hw
  | cons a as ih =>
    intro c hc
    rw [List.foldr_cons] at hw
    by_cases ha : isPySpace a
    · rw [pyWordsStep_space a _ ha] at hw
      rcases List.mem_cons.mp hw with h0 | h0
      · subst h0; cases hc
      · have := ih w h0 c hc
        exact ⟨this.1, List.mem_cons_of_mem a this.2⟩
    · have ha2 : isPySpace a = false := by simpa using ha
      cases hG : List.foldr pyWordsStep [] as with
      | nil =>
        rw [hG, pyWordsStep_nonspace_nil a ha2] at hw
        rcases List.mem_singleton.mp hw with rfl
        rcases List.mem_singleton.mp hc with rfl
        exact ⟨ha2, List.mem_cons_self c as⟩
      | cons g gs =>
        rw [hG, pyWordsStep_nonspace_cons a g gs ha2] at hw
        rcases List.mem_cons.mp hw with h0 | h0
        · subst h0
          rcases List.mem_cons.mp hc with h1 | h1
          · subst h1
            exact ⟨ha2, List.mem_cons_self c as⟩
          · have := ih g (by rw [hG]; exact List.mem_cons_self g gs) c h1
            exact ⟨this.1, List.mem_cons_of_mem a this.2⟩
        · have := ih w (by rw [hG]; exact List.mem_cons_of_mem g h0) c hc
          exact ⟨this.1, List.mem_cons_of_mem a this.2⟩

theorem mem_pyWords (l : List Char) (w : List Char) (hw : w ∈ pyWords l) :
    w ≠ [] ∧ ∀ c ∈ w, isPySpace c = false ∧ c ∈ l := by
  unfold pyWords at hw
  rw [List.mem_filter] at hw
  refine ⟨?_, mem_foldr_pyWordsStep l w hw.1⟩
  intro hnil
  subst hnil
  simp at hw

end Burrow

namespace Burrow

theorem foldr_pyWordsStep_initE (l : List Char) :
    List.foldr pyWordsStep [[]] l = List.foldr pyWordsStep [] l ∨
    List.foldr pyWordsStep [[]] l = List.foldr pyWordsStep [] l ++ [[]] := by
  induction l with
  | nil => right; rfl
  | cons c cs ih =>
    rw [List.foldr_cons, List.foldr_cons]
    by_cases hc : isPySpace c
    · rw [pyWordsStep_space _ _ (by simpa using hc),
        pyWordsStep_space _ _ (by simpa using hc)]
      rcases ih with h | h
      · left; rw [h]
      · right; rw [h]; rfl
    · have hc2 : isPySpace c = false := by simpa using hc
      rcases ih with h | h
      · left; rw [h]
      · rw [h]
        cases hG : List.foldr pyWordsStep [] cs with
        | nil =>
          left
          rw [show (([] : List (List Char)) ++ [[]]) = [([] : List Char)]
            from rfl]
          rw [pyWordsStep_nonspace_cons c [] [] hc2,
            pyWordsStep_nonspace_nil c hc2]
        | cons g gs =>
          right
          rw [show ((g :: gs) ++ [[]]) = g :: (gs ++ [[]]) from rfl]
          rw [pyWordsStep_nonspace_cons c g (gs ++ [[]]) hc2,
            pyWordsStep_nonspace_cons c g gs hc2]
          rfl

theorem pyWords_append_space (l : List Char) (s : Char)
    (hs : isPySpace s = true) : pyWords (l ++ [s]) = pyWords l := by
  unfold pyWords
  rw [List.foldr_append]
  have h1 : List.foldr pyWordsStep [] [s] = [[]] := by
    rw [List.foldr_cons, List.foldr_nil, pyWordsStep_space _ _ hs]
  rw [h1]
  rcases foldr_pyWordsStep_initE l with h | h
  · rw [h]
  · rw [h, List.filter_append]
    simp

theorem pyWords_cons_space (c : Char) (cs : List Char)
    (hc : isPySpace c = true) : pyWords (c :: cs) = pyWords cs := by
  unfold pyWords
  rw [List.foldr_cons, pyWordsStep_space _ _ hc]
  rw [List.filter_cons]
  simp

theorem pyWords_dropWhile (l : List Char) :
    pyWords (l.dropWhile isPySpace) = pyWords l := by
  induction l with
  | nil => rfl
  | cons c cs ih =>
    rw [List.dropWhile_cons]
    by_cases hc : isPySpace c
    · rw [if_pos hc, ih, pyWords_cons_space c cs (by simpa using hc)]
    · rw [if_neg hc]

theorem pyWords_dropRight (r : List Char) :
    pyWords ((r.dropWhile isPySpace).reverse) = pyWords r.reverse := by
  induction r with
  | nil => rfl
  | cons c rs ih =>
    rw [List.dropWhile_cons]
    by_cases hc : isPySpace c
    · rw [if_pos hc, ih, List.reverse_cons,
        pyWords_append_space rs.reverse c (by simpa using hc)]
    · rw [if_neg hc]

theorem pyWords_pyStrip (l : List Char) :
    pyWords (pyStrip l) = pyWords l := by
  unfold pyStrip
  rw [pyWords_dropRight (l.dropWhile isPySpace).reverse,
    List.reverse_reverse, pyWords_dropWhile]

theorem mem_joinWords (ws : List (List Char)) (c : Char)
    (hc : c ∈ joinWords ws) : c = ' ' ∨ ∃ w ∈ ws, c ∈ w := by
  induction ws with
  | nil => cases hc
  | cons w rest ih =>
    cases rest with
    | nil =>
      right
      exact ⟨w, List.mem_singleton.mpr rfl, hc⟩
    | cons v vs =>
      rw [show joinWords (w :: v :: vs) = w ++ ' ' :: joinWords (v :: vs)
        from rfl] at hc
      rcases List.mem_append.mp hc with h | h
      · right; exact ⟨w, List.mem_cons_self _ _, h⟩
      · rcases List.mem_cons.mp h with h0 | h0
        · left; exact h0
        · rcases ih h0 with h1 | ⟨u, hu, hcu⟩
          · left; exact h1
          · right; exact ⟨u, List.mem_cons_of_mem _ hu, hcu⟩

theorem pyWords_joinWords (ws : List (List Char))
    (h : ∀ w ∈ ws, w ≠ [] ∧ ∀ c ∈ w, isPySpace c = false) :
    pyWords (joinWords ws) = ws := by
  induction ws with
  | nil => rfl
  | cons w rest ih =>
    cases rest with
    | nil =>
      obtain ⟨hne, hns⟩ := h w (List.mem_singleton.mpr rfl)
      show pyWords w = [w]
      unfold pyWords
      rw [foldr_pyWordsStep_nil w hns, if_neg hne]
      simp [hne]
    | cons v vs =>
      obtain ⟨hne, hns⟩ := h w (List.mem_cons_self _ _)
      have hrest : ∀ u ∈ v :: vs, u ≠ [] ∧ ∀ c ∈ u, isPySpace c = false :=
        fun u hu => h u (List.mem_cons_of_mem _ hu)
      have ihr := ih hrest
      unfold pyWords at ihr ⊢
      rw [show joinWords (w :: v :: vs) = w ++ ' ' :: joinWords (v :: vs)
        from rfl]
      rw [List.foldr_append, List.foldr_cons,
        pyWordsStep_space ' ' _ (by decide),
        foldr_pyWordsStep_cons w [] _ hns]
      rw [List.filter_cons]
      simp only [List.append_nil]
      rw [if_pos (by simpa using hne)]
      rw [ihr]

end Burrow

namespace Burrow

/-- A character every stage of `_normalize_headword_for_index` leaves
alone: case-stable, NFKD-inert, non-combining and not one of the
replaced characters. -/
def inertChar (c : Char) : Bool :=
  pyLower c = c ∧ nfkdChar c = [c] ∧ combiningClass c = 0 ∧
  c ≠ '*' ∧ c ≠ '-' ∧ c ≠ '(' ∧ c ≠ ')'

/-- An input character on which the normalizer is stable under
re-application: a replaced character, or one whose lowered NFKD
decomposition consists of combining marks and inert characters only.
(This excludes compatibility characters such as `™`, whose NFKD image
contains uppercase letters.) -/
def tameChar (c : Char) : Bool :=
  c = '*' ∨ c = '-' ∨ c = '(' ∨ c = ')' ∨
  (nfkdChar (pyLower c)).all (fun d =>
    combiningClass d ≠ 0 ∨ inertChar d)

theorem flatMap_eq_self (l : List Char) (f : Char → List Char)
    (h : ∀ c ∈ l, f c = [c]) : l.flatMap f = l := by
  induction l with
  | nil => rfl
  | cons c cs ih =>
    rw [List.flatMap_cons, h c (List.mem_cons_self c cs),
      ih (fun x hx => h x (List.mem_cons_of_mem c hx))]
    rfl

theorem map_eq_self (l : List Char) (f : Char → Char)
    (h : ∀ c ∈ l, f c = c) : l.map f = l := by
  induction l with
  | nil => rfl
  | cons c cs ih =>
    rw [List.map_cons, h c (List.mem_cons_self c cs),
      ih (fun x hx => h x (List.mem_cons_of_mem c hx))]

theorem mem_pyStrip (l : List Char) (c : Char) (h : c ∈ pyStrip l) :
    c ∈ l := by
  unfold pyStrip at h
  have h1 := List.mem_reverse.mp h
  have h2 := (List.dropWhile_sublist (l := (l.dropWhile isPySpace).reverse)
    (p := isPySpace)).subset h1
  have h3 := List.mem_reverse.mp h2
  exact (List.dropWhile_sublist (l := l) (p := isPySpace)).subset h3

theorem inertChar_spec (c : Char) (h : inertChar c = true) :
    pyLower c = c ∧ nfkdChar c = [c] ∧ combiningClass c = 0 ∧
    replSpecial c = [c] := by
  unfold inertChar at h
  simp only [decide_eq_true_eq] at h
  obtain ⟨h1, h2, h3, h4, h5, h6, h7⟩ := h
  refine ⟨h1, h2, h3, ?_⟩
  unfold replSpecial
  rw [if_neg h4, if_neg h5, if_neg h6, if_neg h7]

theorem filtered_inert (l : List Char) (H : ∀ c ∈ l, tameChar c = true) :
    ∀ c ∈ (nfkdChars (pyLowerChars (pyStrip
        (l.flatMap replSpecial)))).filter (fun c => combiningClass c = 0),
      inertChar c = true := by
  intro c hc
  rw [List.mem_filter] at hc
  obtain ⟨hc1, hc0⟩ := hc
  have hc0p : combiningClass c = 0 := by simpa using hc0
  unfold nfkdChars at hc1
  rw [List.mem_flatMap] at hc1
  obtain ⟨b, hb, hcb⟩ := hc1
  unfold pyLowerChars at hb
  rw [List.mem_map] at hb
  obtain ⟨a, ha, rfl⟩ := hb
  have ha2 : a ∈ l.flatMap replSpecial := mem_pyStrip _ _ ha
  rw [List.mem_flatMap] at ha2
  obtain ⟨c0, hc0l, hac0⟩ := ha2
  have ht := H c0 hc0l
  unfold tameChar at ht
  simp only [decide_eq_true_eq] at ht
  have hspace : a = ' ' → inertChar c = true := by
    intro hsp
    subst hsp
    rw [show pyLower ' ' = ' ' from by decide] at hcb
    rw [show nfkdChar ' ' = [' '] from by decide] at hcb
    rcases List.mem_singleton.mp hcb with rfl
    decide
  rcases ht with h0 | h0 | h0 | h0 | h0
  · subst h0
    rw [show replSpecial '*' = [] from by decide] at hac0
    cases hac0
  · subst h0
    rw [show replSpecial '-' = [' '] from by decide] at hac0
    exact hspace (List.mem_singleton.mp hac0)
  · subst h0
    rw [show replSpecial '(' = [' '] from by decide] at hac0
    exact hspace (List.mem_singleton.mp hac0)
  · subst h0
    rw [show replSpecial ')' = [' '] from by decide] at hac0
    exact hspace (List.mem_singleton.mp hac0)
  · by_cases hcsp : c0 = '*' ∨ c0 = '-' ∨ c0 = '(' ∨ c0 = ')'
    · have hra : replSpecial c0 = [] ∨ replSpecial c0 = [' '] := by
        unfold replSpecial
        rcases hcsp with h | h | h | h <;> simp [h]
      rcases hra with hra | hra
      · rw [hra] at hac0; cases hac0
      · rw [hra] at hac0
        exact hspace (List.mem_singleton.mp hac0)
    · have hra : replSpecial c0 = [c0] := by
        unfold replSpecial
        push_neg at hcsp
        rw [if_neg hcsp.1, if_neg hcsp.2.1, if_neg hcsp.2.2.1,
          if_neg hcsp.2.2.2]
      rw [hra] at hac0
      rcases List.mem_singleton.mp hac0 with rfl
      rw [List.all_eq_true] at h0
      have := h0 c hcb
      simp only [decide_eq_true_eq] at this
      rcases this with h1 | h1
      · exact absurd hc0p h1
      · exact h1

end Burrow

namespace Burrow

theorem normChars_idem (l : List Char) (H : ∀ c ∈ l, tameChar c = true) :
    normalizeHeadwordChars (normalizeHeadwordChars l)
      = normalizeHeadwordChars l := by
  have hinert := filtered_inert l H
  have hnl : normalizeHeadwordChars l =
      joinWords (pyWords ((nfkdChars (pyLowerChars (pyStrip
        (l.flatMap replSpecial)))).filter
          (fun c => combiningClass c = 0))) := rfl
  set filt := (nfkdChars (pyLowerChars (pyStrip
    (l.flatMap replSpecial)))).filter (fun c => combiningClass c = 0)
    with hfiltdef
  set ws := pyWords filt with hwsdef
  set y := joinWords ws with hydef
  rw [hnl]
  have hychar : ∀ c ∈ y, c = ' ' ∨
      (inertChar c = true ∧ isPySpace c = false) := by
    intro c hc
    rcases mem_joinWords ws c hc with h | ⟨w, hw, hcw⟩
    · left; exact h
    · right
      have hmw := mem_pyWords filt w hw
      have h1 := hmw.2 c hcw
      exact ⟨hinert c h1.2, h1.1⟩
  show normalizeHeadwordChars y = y
  unfold normalizeHeadwordChars
  have hrepl : y.flatMap replSpecial = y := by
    apply flatMap_eq_self
    intro c hc
    rcases hychar c hc with h | ⟨hi, _⟩
    · subst h; decide
    · exact (inertChar_spec c hi).2.2.2
  rw [hrepl]
  have hymem : ∀ c ∈ pyStrip y, c = ' ' ∨
      (inertChar c = true ∧ isPySpace c = false) :=
    fun c hc => hychar c (mem_pyStrip y c hc)
  have hlower : pyLowerChars (pyStrip y) = pyStrip y := by
    apply map_eq_self
    intro c hc
    rcases hymem c hc with h | ⟨hi, _⟩
    · subst h; decide
    · exact (inertChar_spec c hi).1
  have hnfkd : nfkdChars (pyStrip y) = pyStrip y := by
    apply flatMap_eq_self
    intro c hc
    rcases hymem c hc with h | ⟨hi, _⟩
    · subst h; decide
    · exact (inertChar_spec c hi).2.1
  have hfil : (pyStrip y).filter (fun c => combiningClass c = 0)
      = pyStrip y := by
    apply List.filter_eq_self.mpr
    intro c hc
    rcases hymem c hc with h | ⟨hi, _⟩
    · subst h; decide
    · simpa using (inertChar_spec c hi).2.2.1
  show joinWords (pyWords (((pyLowerChars (pyStrip y)).flatMap
    nfkdChar).filter (fun c => combiningClass c = 0))) = y
  rw [show (pyLowerChars (pyStrip y)).flatMap nfkdChar
    = nfkdChars (pyLowerChars (pyStrip y)) from rfl]
  rw [hlower, hnfkd, hfil, pyWords_pyStrip]
  have hwords : pyWords y = ws := by
    apply pyWords_joinWords
    intro w hw
    have hmw := mem_pyWords filt w hw
    exact ⟨hmw.1, fun c hc => (hmw.2 c hc).1⟩
  rw [hwords]

/-- Counterexample to C6: the normalizer is not idempotent on every
string.  `™` (U+2122) NFKD-decomposes to the uppercase `TM`, but
lowercasing happens before decomposition, so a second application
lowercases the result: `normalize("™") = "TM"` while
`normalize("TM") = "tm"`. -/
theorem normalize_headword_not_idempotent :
    normalize_headword_for_index (normalize_headword_for_index "™")
      ≠ normalize_headword_for_index "™" := by
  decide

/-- C6 (amended): `_normalize_headword_for_index` is idempotent on every
string of tame characters — those that are replaced away, or whose
lowered NFKD decomposition contains only combining marks and characters
that are case-stable, NFKD-inert, non-combining and unreplaced (all
ordinary letters, digits and diacritic letters are tame; compatibility
characters decomposing to uppercase, such as `™`, are not) — and it is
diacritic-insensitive: `normalize("Toṉṉai") = normalize("tonnai")`.
Totality holds by construction: the embedding is a total function built
from total character maps. -/
theorem normalize_headword_idempotent_tame :
    (∀ s : String, (∀ c ∈ s.data, tameChar c = true) →
       normalize_headword_for_index (normalize_headword_for_index s)
         = normalize_headword_for_index s)
    ∧ normalize_headword_for_index "Toṉṉai"
        = normalize_headword_for_index "tonnai" := by
  constructor
  · intro s hs
    unfold normalize_headword_for_index
    have hdata : (String.mk (normalizeHeadwordChars s.data)).data
        = normalizeHeadwordChars s.data := rfl
    rw [hdata, normChars_idem s.data hs]
  · rfl

/-- Witness for the amended C6 at the diacritic example itself. -/
theorem normalize_headword_idempotent_tame_witness :
    normalize_headword_for_index
        (normalize_headword_for_index "Toṉṉai")
      = normalize_headword_for_index "Toṉṉai" :=
  normalize_headword_idempotent_tame.1 "Toṉṉai" (by decide)

end Burrow
